import Mathlib

/-
  Verification of the marimo notebook pipeline
  (src/viz/skills/scripts/marimo_handler.py).

  Strings are modelled as `List Char`.  Python's `str.splitlines(keepends=True)`,
  `str.strip()`, the regular expressions of the import extractor, and the
  f-string templates are embedded faithfully at the character level (ASCII-level
  model: the `\w` class is modelled as ASCII alphanumeric plus underscore, and
  `\s` as the six ASCII whitespace characters).
-/

set_option maxRecDepth 10000

abbrev Str := List Char

def chars (s : String) : Str := s.data

/-- Python `str.strip()` whitespace characters (ASCII subset). -/
def isPySpace (c : Char) : Bool :=
  c = ' ' || c = '\t' || c = '\n' || c = '\r' || c = '\x0b' || c = '\x0c'

/-- The line-break characters recognised by Python `str.splitlines`. -/
def isBreakChar (c : Char) : Bool :=
  c = '\n' || c = '\r' || c = '\x0b' || c = '\x0c' || c = '\x1c' ||
  c = '\x1d' || c = '\x1e' || c = '\x85' || c = '\u2028' || c = '\u2029'

/-- Python `str.splitlines(keepends=True)`: each returned line keeps its
terminator; `"\r\n"` counts as a single terminator. -/
def splitlines : Str → List Str
  | [] => []
  | [c] => [[c]]
  | c :: c2 :: rest =>
    if c = '\r' ∧ c2 = '\n' then ['\r', '\n'] :: splitlines rest
    else if isBreakChar c then [c] :: splitlines (c2 :: rest)
    else
      match splitlines (c2 :: rest) with
      | [] => [[c]]
      | l :: ls => (c :: l) :: ls

/-- `"".join(lines)`. -/
def joinL : List Str → Str
  | [] => []
  | l :: ls => l ++ joinL ls

/-- Python `str.strip()` (no argument): drop leading and trailing whitespace. -/
def pyStrip (s : Str) : Str :=
  ((s.dropWhile isPySpace).reverse.dropWhile isPySpace).reverse

/-- Substring test (`needle in haystack` in Python). -/
def isSubstr : Str → Str → Bool
  | n, [] => n.isEmpty
  | n, c :: t => n.isPrefixOf (c :: t) || isSubstr n t

-- ------------------------------------------------------------------
-- Basic lemmas about splitlines / joinL
-- ------------------------------------------------------------------

theorem joinL_append (a b : List Str) : joinL (a ++ b) = joinL a ++ joinL b := by
  induction a with
  | nil => simp [joinL]
  | cons l ls ih => simp [joinL, ih]

/-- Joining the kept-ends lines reproduces the original string. -/
theorem joinL_splitlines (s : Str) : joinL (splitlines s) = s := by
  induction s using splitlines.induct with
  | case1 => simp [splitlines, joinL]
  | case2 c => simp [splitlines, joinL]
  | case3 c c2 rest h ih =>
    obtain ⟨hc, hc2⟩ := h
    subst hc; subst hc2
    simp [splitlines, joinL, ih]
  | case4 c c2 rest h hb ih =>
    simp only [splitlines, if_neg h, if_pos hb, joinL, ih]
    simp
  | case5 c c2 rest h hb hsp ih =>
    rw [hsp] at ih
    simp [joinL] at ih
  | case6 c c2 rest h hb l ls hsp ih =>
    rw [hsp] at ih
    simp only [splitlines, if_neg h, if_neg hb, hsp, joinL] at ih ⊢
    rw [List.cons_append, ih]

-- ------------------------------------------------------------------
-- Import deduplication (strip_imports_from_action_code and the
-- regular expressions of _extract_imported_names_from_line)
-- ------------------------------------------------------------------

/-- The `\w` character class (ASCII model). -/
def isWordChar (c : Char) : Bool := c.isAlphanum || c = '_'

/-- `[\w.]` character class used for module paths. -/
def isModChar (c : Char) : Bool := isWordChar c || c = '.'

/-- Greedy munch of at least one character satisfying `p`:
returns the munched prefix and the remainder. -/
def munch1 (p : Char → Bool) (s : Str) : Option (Str × Str) :=
  let m := s.takeWhile p
  if m.isEmpty then none else some (m, s.dropWhile p)

/-- Consume an exact literal prefix. -/
def dropLit (lit : Str) (s : Str) : Option Str :=
  if lit.isPrefixOf s then some (s.drop lit.length) else none

/-- The regex `^import\s+(\w+)(?:\s+as\s+(\w+))?$` applied to a stripped line,
returning the single bound name (`Y` for `import X as Y`, else `X`).
The character classes `\s` and `\w` are disjoint, so greedy matching is
deterministic and backtracking never changes the outcome. -/
def parsePlainImport (s : Str) : Option Str :=
  match dropLit (chars "import") s with
  | none => none
  | some r1 =>
    match munch1 isPySpace r1 with
    | none => none
    | some (_, r2) =>
      match munch1 isWordChar r2 with
      | none => none
      | some (g1, r3) =>
        if r3.isEmpty then some g1
        else
          match munch1 isPySpace r3 with
          | none => none
          | some (_, r4) =>
            match dropLit (chars "as") r4 with
            | none => none
            | some r5 =>
              match munch1 isPySpace r5 with
              | none => none
              | some (_, r6) =>
                match munch1 isWordChar r6 with
                | none => none
                | some (g2, r7) => if r7.isEmpty then some g2 else none

/-- The regex `^from\s+[\w.]+\s+import\s+(.+)$` applied to a stripped line,
returning the text captured by `(.+)` (`.` does not match a newline). -/
def parseFromNames (s : Str) : Option Str :=
  match dropLit (chars "from") s with
  | none => none
  | some r1 =>
    match munch1 isPySpace r1 with
    | none => none
    | some (_, r2) =>
      match munch1 isModChar r2 with
      | none => none
      | some (_, r3) =>
        match munch1 isPySpace r3 with
        | none => none
        | some (_, r4) =>
          match dropLit (chars "import") r4 with
          | none => none
          | some r5 =>
            match munch1 isPySpace r5 with
            | none => none
            | some (_, r6) =>
              if r6.isEmpty || r6.contains '\n' then none else some r6

/-- Python `str.split(',')` (single-character separator). -/
def splitComma : Str → List Str
  | [] => [[]]
  | c :: rest =>
    if c = ',' then [] :: splitComma rest
    else
      match splitComma rest with
      | [] => [[c]]
      | p :: ps => (c :: p) :: ps

/-- The regex `(\w+)(?:\s+as\s+(\w+))?` matched at the start of a
comma-separated part (no end anchor): yields the alias if the optional
group matches, else the first name, or `none` when the part does not
start with a word character. -/
def parseAliasPart (part : Str) : Option Str :=
  match munch1 isWordChar part with
  | none => none
  | some (g1, r1) =>
    match munch1 isPySpace r1 with
    | none => some g1
    | some (_, r2) =>
      match dropLit (chars "as") r2 with
      | none => some g1
      | some r3 =>
        match munch1 isPySpace r3 with
        | none => some g1
        | some (_, r4) =>
          match munch1 isWordChar r4 with
          | none => some g1
          | some (g2, _) => some g2

/-- `_extract_imported_names_from_line`: the names an import line binds. -/
def extract_imported_names_from_line (import_line : Str) : List Str :=
  let il := pyStrip import_line
  match parsePlainImport il with
  | some n => [n]
  | none =>
    match parseFromNames il with
    | some grp => (splitComma grp).filterMap (fun part => parseAliasPart (pyStrip part))
    | none => []

/-- `name in setup_imports` for the name-to-statement dict
(modelled as an association list). -/
def setupHasName (n : Str) (setup_imports : List (Str × Str)) : Bool :=
  setup_imports.any (fun p => p.1 = n)

/-- Whether `strip_imports_from_action_code` treats a (stripped) line as
an import statement. -/
def isImportLine (stripped : Str) : Bool :=
  (chars "import ").isPrefixOf stripped || (chars "from ").isPrefixOf stripped

/-- The per-line loop of `strip_imports_from_action_code`. -/
def stripImportsLines (setup_imports : List (Str × Str)) : List Str → List Str
  | [] => []
  | line :: rest =>
    let stripped := pyStrip line
    if isImportLine stripped then
      let names := extract_imported_names_from_line stripped
      if names.all (fun n => setupHasName n setup_imports) && !names.isEmpty then
        stripImportsLines setup_imports rest
      else line :: stripImportsLines setup_imports rest
    else line :: stripImportsLines setup_imports rest

/-- `strip_imports_from_action_code`: drop caller import lines whose bound
names are all already provided by the setup block. -/
def strip_imports_from_action_code (action_code : Str)
    (setup_imports : List (Str × Str)) : Str :=
  joinL (stripImportsLines setup_imports (splitlines action_code))

example : extract_imported_names_from_line (chars "import numpy as np") = [chars "np"] := by decide
example : extract_imported_names_from_line (chars "import numpy") = [chars "numpy"] := by decide
example : extract_imported_names_from_line (chars "from os import path") = [chars "path"] := by decide
example : extract_imported_names_from_line (chars "from typing import List, Dict") =
    [chars "List", chars "Dict"] := by decide
example : extract_imported_names_from_line (chars "import x.y") = [] := by decide
example : extract_imported_names_from_line (chars "from m import a as b, c") =
    [chars "b", chars "c"] := by decide
example :
    strip_imports_from_action_code (chars "import pandas as pd\ndf.head()")
      [(chars "pd", chars "import pandas as pd")] = chars "df.head()" := by decide

-- ------------------------------------------------------------------
-- Data model (MarimoCell / ParsedNotebook / PreparedNotebook)
-- ------------------------------------------------------------------

structure MarimoCell where
  name : Str
  refs : List Str
  defs : List Str
  code : Str
  start_line : Int
  end_line : Int
deriving DecidableEq

instance : Inhabited MarimoCell := ⟨⟨[], [], [], [], 0, 0⟩⟩

structure MarimoFunction where
  name : Str
  code : Str
  start_line : Int
  end_line : Int
deriving DecidableEq

structure MarimoClass where
  name : Str
  code : Str
  start_line : Int
  end_line : Int
deriving DecidableEq

structure ParsedNotebook where
  preamble : Str
  setup_code : Str
  functions : List MarimoFunction := []
  classes : List MarimoClass := []
  cells : List MarimoCell := []
  main_block : Str := []
deriving DecidableEq

structure PreparedNotebook where
  parsed : ParsedNotebook
  required_indices : List Nat
  required_functions : List Str
  target_var : Option Str
  cwd : Str
deriving DecidableEq

-- ------------------------------------------------------------------
-- Dependency resolution (get_required_cells)
-- ------------------------------------------------------------------

/-- `var_to_cell`: for every cell (in order), map each of its defs to the
cell index.  A Python dict overwrites earlier entries, so lookups must find
the LAST write (`lookupLast`). -/
def var_to_cell (cells : List MarimoCell) : List (Str × Nat) :=
  cells.enum.flatMap (fun p => p.2.defs.map (fun v => (v, p.1)))

/-- Dict lookup with last-write-wins semantics. -/
def lookupLast (v : Str) (m : List (Str × Nat)) : Option Nat :=
  (m.reverse.find? (fun p => p.1 == v)).map (fun p => p.2)

/-- Add to a Python-set-modelling list only if absent. -/
def insertIfAbsent {α : Type} [DecidableEq α] (a : α) (l : List α) : List α :=
  if a ∈ l then l else l ++ [a]

/-- The `while queue:` loop of `get_required_cells`.  The queue is kept in
reversed order relative to the Python list (the head is the element
`queue.pop()` removes).  `none` signals fuel exhaustion; `resolveLoop_total`
below proves the chosen fuel never runs out. -/
def resolveLoop (cells : List MarimoCell) (vmap : List (Str × Nat))
    (function_names : List Str) :
    Nat → List Str → List Str → List Nat → List Str → Option (List Nat × List Str)
  | _, [], _, ridx, rfns => some (ridx, rfns)
  | 0, _ :: _, _, _, _ => none
  | fuel + 1, var :: rest, visited, ridx, rfns =>
    if var ∈ visited then
      resolveLoop cells vmap function_names fuel rest visited ridx rfns
    else
      let visited' := var :: visited
      let st :=
        match lookupLast var vmap with
        | some i =>
          let cell := cells.getD i default
          (((cell.refs.filter (fun r => r ∉ visited')).reverse) ++ rest,
            insertIfAbsent i ridx)
        | none => (rest, ridx)
      let rfns' := if var ∈ function_names then insertIfAbsent var rfns else rfns
      resolveLoop cells vmap function_names fuel st.1 visited' st.2 rfns'

/-- Total length of all cells' refs lists: bounds how much one loop step can
grow the queue. -/
def refBound (cells : List MarimoCell) : Nat :=
  (cells.flatMap MarimoCell.refs).length

/-- Variables that may still be marked visited, weighted against queue
growth: the loop's termination measure. -/
def loopMeasure (cells : List MarimoCell) (vmap : List (Str × Nat))
    (visited queue : List Str) : Nat :=
  ((vmap.map Prod.fst).filter (fun k => k ∉ visited)).length * (refBound cells + 2)
    + queue.length

/-- Fuel that dominates the initial measure for any target list. -/
def resolveFuel (cells : List MarimoCell) (target_vars : List Str) : Nat :=
  (var_to_cell cells).length * (refBound cells + 2) + target_vars.length + 1

/-- The post-pass of `get_required_cells`: textual function-usage heuristic. -/
def postPass (cells : List MarimoCell) (function_names : List Str)
    (ridx : List Nat) (rfns : List Str) : List Str :=
  ridx.foldl (fun acc i =>
    let cell := cells.getD i default
    function_names.foldl
      (fun acc2 f => if isSubstr f cell.code then insertIfAbsent f acc2 else acc2)
      acc) rfns

/-- `get_required_cells`: backward reachability from the target variables,
then the textual post-pass, returning sorted cell indices and the needed
function names. -/
def get_required_cells (parsed : ParsedNotebook) (target_vars : List Str) :
    List Nat × List Str :=
  let vmap := var_to_cell parsed.cells
  let function_names := parsed.functions.map MarimoFunction.name
  match resolveLoop parsed.cells vmap function_names
      (resolveFuel parsed.cells target_vars) target_vars.reverse [] [] [] with
  | none => ([], [])
  | some (ridx, rfns) =>
    (List.insertionSort (· ≤ ·) ridx, postPass parsed.cells function_names ridx rfns)

-- ------------------------------------------------------------------
-- Resolver lemmas: termination and shape of the result
-- ------------------------------------------------------------------

theorem filter_length_mono {α : Type} (p q : α → Bool)
    (h : ∀ a, q a = true → p a = true) (l : List α) :
    (l.filter q).length ≤ (l.filter p).length := by
  induction l with
  | nil => simp
  | cons a t ih =>
    by_cases hq : q a = true
    · simp [List.filter, hq, h a hq, Nat.succ_le_succ ih]
    · by_cases hp : p a = true
      · simp [List.filter, hq, hp]
        omega
      · simp [List.filter, hq, hp, ih]

theorem filter_length_strict {α : Type} (p q : α → Bool)
    (h : ∀ a, q a = true → p a = true) (l : List α) (x : α)
    (hx : x ∈ l) (hpx : p x = true) (hqx : q x = false) :
    (l.filter q).length < (l.filter p).length := by
  induction l with
  | nil => simp at hx
  | cons a t ih =>
    rcases List.mem_cons.mp hx with rfl | hxt
    · have hqa : q x = false := hqx
      simp [List.filter, hqa, hpx]
      exact Nat.lt_succ_of_le (filter_length_mono p q h t)
    · by_cases hq : q a = true
      · simp [List.filter, hq, h a hq]
        exact ih hxt
      · by_cases hp : p a = true
        · simp [List.filter, hq, hp]
          exact Nat.lt_succ_of_lt (ih hxt)
        · simp [List.filter, hq, hp]
          exact ih hxt

theorem lookupLast_mem_keys {v : Str} {m : List (Str × Nat)} {i : Nat}
    (h : lookupLast v m = some i) : v ∈ m.map Prod.fst := by
  unfold lookupLast at h
  cases hf : m.reverse.find? (fun p => p.1 == v) with
  | none => rw [hf] at h; simp at h
  | some p =>
    rw [hf] at h
    have hmem : p ∈ m.reverse := List.mem_of_find?_eq_some hf
    have hpred := List.find?_some hf
    have hv : p.1 = v := by simpa using hpred
    have : p ∈ m := List.mem_reverse.mp hmem
    exact hv ▸ List.mem_map_of_mem Prod.fst this

theorem getD_refs_le_refBound (cells : List MarimoCell) (i : Nat) :
    (cells.getD i default).refs.length ≤ refBound cells := by
  induction cells generalizing i with
  | nil =>
    cases i <;> exact Nat.le_refl 0
  | cons c t ih =>
    have h2 : refBound (c :: t) = c.refs.length + refBound t := by
      simp [refBound, List.flatMap_cons]
    cases i with
    | zero =>
      rw [List.getD_cons_zero, h2]
      omega
    | succ j =>
      rw [List.getD_cons_succ, h2]
      have := ih j
      omega

/-- With fuel at least the loop measure, the resolver loop drains its queue:
the backward-reachability walk terminates. -/
theorem resolveLoop_total (cells : List MarimoCell) (vmap : List (Str × Nat))
    (function_names : List Str) :
    ∀ fuel queue visited ridx rfns,
      loopMeasure cells vmap visited queue ≤ fuel →
      (resolveLoop cells vmap function_names fuel queue visited ridx rfns).isSome := by
  intro fuel
  induction fuel using Nat.strong_induction_on with
  | _ fuel ih =>
    intro queue visited ridx rfns hm
    match queue with
    | [] =>
      cases fuel <;> simp [resolveLoop]
    | var :: rest =>
      match fuel with
      | 0 =>
        exfalso
        simp [loopMeasure] at hm
      | fuel + 1 =>
        have hmq : loopMeasure cells vmap visited (var :: rest) =
            loopMeasure cells vmap visited rest + 1 := by
          simp only [loopMeasure, List.length_cons]
          omega
        by_cases hv : var ∈ visited
        · simp only [resolveLoop, if_pos hv]
          exact ih fuel (Nat.lt_succ_self _) rest visited ridx rfns (by omega)
        · simp only [resolveLoop, if_neg hv]
          have hmono : ∀ a : Str,
              (decide (a ∉ var :: visited)) = true → (decide (a ∉ visited)) = true := by
            intro a ha
            simp at ha ⊢
            exact ha.2
          cases hlk : lookupLast var vmap with
          | none =>
            simp only [hlk]
            apply ih fuel (Nat.lt_succ_self _) rest (var :: visited) ridx _
            have hle := filter_length_mono (fun k => decide (k ∉ visited))
              (fun k => decide (k ∉ var :: visited)) hmono (vmap.map Prod.fst)
            simp only [loopMeasure] at hm ⊢
            have := Nat.mul_le_mul_right (refBound cells + 2) hle
            simp only [List.length_cons] at hm
            omega
          | some i =>
            simp only [hlk]
            apply ih fuel (Nat.lt_succ_self _) _ (var :: visited) _ _
            have hkey : var ∈ vmap.map Prod.fst := lookupLast_mem_keys hlk
            have hstrict := filter_length_strict (fun k => decide (k ∉ visited))
              (fun k => decide (k ∉ var :: visited)) hmono (vmap.map Prod.fst) var
              hkey (by simpa using hv) (by simp)
            have hrefs : ((cells.getD i default).refs.filter
                (fun r => r ∉ var :: visited)).reverse.length ≤ refBound cells := by
              rw [List.length_reverse]
              calc ((cells.getD i default).refs.filter
                    (fun r => r ∉ var :: visited)).length
                  ≤ (cells.getD i default).refs.length := List.length_filter_le _ _
                _ ≤ refBound cells := getD_refs_le_refBound cells i
            simp only [loopMeasure, List.length_append, List.length_cons] at hm ⊢
            set U := ((vmap.map Prod.fst).filter (fun k => decide (k ∉ visited))).length with hU
            set U' := ((vmap.map Prod.fst).filter
              (fun k => decide (k ∉ var :: visited))).length with hU'
            have hU1 : 1 ≤ U := by omega
            obtain ⟨u, hu⟩ : ∃ u, U = u + 1 := ⟨U - 1, by omega⟩
            have hmul : U' * (refBound cells + 2) ≤ u * (refBound cells + 2) :=
              Nat.mul_le_mul_right _ (by omega)
            have hmul2 : U * (refBound cells + 2) =
                u * (refBound cells + 2) + (refBound cells + 2) := by
              rw [hu, Nat.succ_mul]
            omega

/-- `insertIfAbsent` preserves `Nodup`. -/
theorem insertIfAbsent_nodup {α : Type} [DecidableEq α] (a : α) (l : List α)
    (h : l.Nodup) : (insertIfAbsent a l).Nodup := by
  unfold insertIfAbsent
  by_cases hm : a ∈ l
  · simp [hm, h]
  · simp [hm]
    exact List.Nodup.append h (List.nodup_singleton a) (by simpa using hm)

/-- The loop only ever adds new indices: the accumulated index list stays
duplicate-free. -/
theorem resolveLoop_nodup (cells : List MarimoCell) (vmap : List (Str × Nat))
    (function_names : List Str) :
    ∀ fuel queue visited ridx rfns r,
      resolveLoop cells vmap function_names fuel queue visited ridx rfns = some r →
      ridx.Nodup → r.1.Nodup := by
  intro fuel
  induction fuel with
  | zero =>
    intro queue visited ridx rfns r hr hn
    match queue with
    | [] => simp [resolveLoop] at hr; rw [← hr]; exact hn
    | v :: rest => simp [resolveLoop] at hr
  | succ fuel ih =>
    intro queue visited ridx rfns r hr hn
    match queue with
    | [] => simp [resolveLoop] at hr; rw [← hr]; exact hn
    | var :: rest =>
      simp only [resolveLoop] at hr
      by_cases hv : var ∈ visited
      · rw [if_pos hv] at hr
        exact ih rest visited ridx rfns r hr hn
      · rw [if_neg hv] at hr
        cases hlk : lookupLast var vmap with
        | none =>
          rw [hlk] at hr
          exact ih _ _ _ _ r hr hn
        | some i =>
          rw [hlk] at hr
          exact ih _ _ _ _ r hr (insertIfAbsent_nodup i ridx hn)

-- ------------------------------------------------------------------
-- Snapshot injection (inject_snapshot / _break_method_chain)
-- ------------------------------------------------------------------

/-- `line.count("(")` for a single character. -/
def countChar (c : Char) (s : Str) : Nat := (s.filter (fun x => x = c)).length

/-- `re.search(r"\.\w+\(", content)`: a dot, then at least one word
character, then an opening parenthesis, anywhere in the line. -/
def hasChainPattern : Str → Bool
  | [] => false
  | c :: rest =>
    if c = '.' then
      if (rest.takeWhile isWordChar).isEmpty then hasChainPattern rest
      else
        match rest.dropWhile isWordChar with
        | '(' :: _ => true
        | _ => hasChainPattern rest
    else hasChainPattern rest

/-- The injected snapshot assignment
`{indent}_viz_snapshot_{v} = {v}.copy() if hasattr({v}, 'copy') else {v}\n`. -/
def mkSnapshotLine (indent : Str) (target_var : Str) : Str :=
  indent ++ chars "_viz_snapshot_" ++ target_var ++ chars " = " ++ target_var ++
  chars ".copy() if hasattr(" ++ target_var ++ chars ", 'copy') else " ++ target_var ++
  chars "\n"

/-- Python `list.insert(i, x)` (clamps to the end when `i` exceeds the length). -/
def pyInsert {α : Type} (i : Nat) (x : α) (l : List α) : List α :=
  l.take i ++ x :: l.drop i

/-- `"=" in line and "==" not in line`. -/
def hasAssign (l : Str) : Bool := l.contains '=' && !(isSubstr (chars "==") l)

/-- `for i in range(target_line_idx, -1, -1)`: nearest assignment line at or
above the target line. -/
def findChainStart (lines : List Str) : Nat → Option Nat
  | 0 => if hasAssign (lines.getD 0 []) then some 0 else none
  | i + 1 =>
    if hasAssign (lines.getD (i + 1) []) then some (i + 1) else findChainStart lines i

/-- The parenthesis-depth walk from the chain start: stops at the first line
where the running depth is `<= 0` and the stripped line ends with `)` or the
line contains `return`; falls back to the supplied default index. -/
def chainEndLoop (defaultIdx : Nat) : Nat → Int → List Str → Nat
  | _, _, [] => defaultIdx
  | i, depth, l :: rest =>
    let depth' := depth + (countChar '(' l : Int) - (countChar ')' l : Int)
    if depth' ≤ 0 ∧ ((chars ")").isSuffixOf (pyStrip l) ∨ isSubstr (chars "return") l) then i
    else chainEndLoop defaultIdx (i + 1) depth' rest

def findChainEnd (lines : List Str) (chain_start target_line_idx : Nat) : Nat :=
  chainEndLoop target_line_idx chain_start 0 (lines.drop chain_start)

/-- `for i in range(chain_end, len(lines)): if "return" in lines[i]`. -/
def returnSearchLoop : Nat → List Str → Option Nat
  | _, [] => none
  | i, l :: rest =>
    if isSubstr (chars "return") l then some i else returnSearchLoop (i + 1) rest

def findReturnFrom (lines : List Str) (start : Nat) : Option Nat :=
  returnSearchLoop start (lines.drop start)

/-- `_break_method_chain`: locate the chain start (nearest assignment above),
walk to the chain end by parenthesis balancing, then insert the snapshot
line before the first `return` line found from the chain end onward. -/
def break_method_chain (lines : List Str) (target_line_idx : Nat)
    (target_var : Str) : Str :=
  match findChainStart lines target_line_idx with
  | none => joinL lines
  | some chain_start =>
    let indent := (lines.getD target_line_idx []).takeWhile isPySpace
    let chain_end := findChainEnd lines chain_start target_line_idx
    match findReturnFrom lines chain_end with
    | none => joinL lines
    | some i => joinL (pyInsert i (mkSnapshotLine indent target_var) lines)

/-- `inject_snapshot`: no-op when the file-relative target line falls outside
the cell; otherwise insert a snapshot line (simple path) or delegate to the
method-chain heuristic (complex path). -/
def inject_snapshot (cell_code : Str) (target_var : Str)
    (target_line cell_start_line : Int) : Str :=
  let lines := splitlines cell_code
  let relative_line : Int := target_line - cell_start_line
  if relative_line < 0 ∨ relative_line ≥ lines.length then cell_code
  else
    let rel := relative_line.toNat
    let target_content := lines.getD rel []
    if isSubstr (chars ".pipe(") target_content || hasChainPattern target_content then
      break_method_chain lines rel target_var
    else
      let indent := target_content.takeWhile isPySpace
      joinL (pyInsert (rel + 1) (mkSnapshotLine indent target_var) lines)

-- ------------------------------------------------------------------
-- Assembly (assemble_pruned_notebook and helpers)
-- ------------------------------------------------------------------

/-- `_indent_code`: indent every non-blank line. -/
def indent_code (code : Str) (indent : Str) : Str :=
  joinL ((splitlines code).map
    (fun line => if (pyStrip line).isEmpty then line else indent ++ line))

/-- Re-indentation of one setup-block line during assembly. -/
def reindentSetupLine (line : Str) : Str :=
  if (pyStrip line).isEmpty then line
  else if (chars "    ").isPrefixOf line then line
  else chars "    " ++ line

/-- The declared input of the synthetic plotting cell.  Python truthiness:
`if target_var and target_line:` is false for an empty string or line 0. -/
def plotRefs (target_var : Option Str) (target_line : Option Int) : Str :=
  match target_var, target_line with
  | some v, some l =>
    if v ≠ [] ∧ l ≠ 0 then chars "_viz_snapshot_" ++ v
    else if v ≠ [] then v
    else chars "_"
  | some v, none => if v ≠ [] then v else chars "_"
  | none, _ => chars "_"

/-- The f-string template of the synthetic terminal cell. -/
def mkPlotCell (refs : Str) (plot_code : Str) : Str :=
  chars "\n@app.cell\ndef _(" ++ refs ++
  chars "):\n    # Viz skill injected plotting code\n" ++
  indent_code plot_code (chars "    ") ++ chars "\n    return\n"

/-- Step 5 of assembly for a single cell: snapshot injection applies only
when the (truthy) target variable is among the cell's defs and the target
line lies in the cell's line range. -/
def assembleCellCode (target_var : Option Str) (target_line : Option Int)
    (cell : MarimoCell) : Str :=
  match target_var, target_line with
  | some v, some l =>
    if v ≠ [] ∧ l ≠ 0 ∧ v ∈ cell.defs ∧ cell.start_line ≤ l ∧ l ≤ cell.end_line then
      inject_snapshot cell.code v l cell.start_line
    else cell.code
  | _, _ => cell.code

/-- `assemble_pruned_notebook`.  The setup-import extraction
(`extract_setup_imports`, which runs Python's own `ast.parse`) is abstracted
as the deterministic function argument `extractor`. -/
def assemble_pruned_notebook (extractor : Str → List (Str × Str))
    (parsed : ParsedNotebook) (required_indices : List Nat)
    (required_functions : List Str) (plot_code : Str)
    (target_var : Option Str) (target_line : Option Int) : Str :=
  let plot_code2 :=
    if parsed.setup_code ≠ [] then
      strip_imports_from_action_code plot_code (extractor parsed.setup_code)
    else plot_code
  let part1 := parsed.preamble
  let part2 :=
    if parsed.setup_code ≠ [] then
      chars "\nwith app.setup:\n" ++
        joinL ((splitlines parsed.setup_code).map reindentSetupLine) ++ chars "\n"
    else []
  let part3 := joinL (parsed.classes.map (fun c => chars "\n" ++ c.code ++ chars "\n"))
  let part4 := joinL ((parsed.functions.filter
      (fun f => decide (f.name ∈ required_functions))).map
      (fun f => chars "\n" ++ f.code ++ chars "\n"))
  let part5 := joinL (required_indices.map (fun idx =>
      chars "\n" ++ assembleCellCode target_var target_line (parsed.cells.getD idx default)
        ++ chars "\n"))
  let part6 := mkPlotCell (plotRefs target_var target_line) plot_code2
  let part7 :=
    if parsed.main_block ≠ [] then chars "\n" ++ parsed.main_block
    else chars "\nif __name__ == \"__main__\":\n    app.run()\n"
  part1 ++ part2 ++ part3 ++ part4 ++ part5 ++ part6 ++ part7

-- ------------------------------------------------------------------
-- Facade (prepare_notebook / MarimoHandler.build_script)
-- ------------------------------------------------------------------

/-- Quote choice of Python `repr` for strings. -/
def pyReprQuote (s : Str) : Char :=
  if s.contains '\'' && !(s.contains '"') then '"' else '\''

/-- Per-character escaping of Python `repr` (ASCII-printable model). -/
def pyCharEsc (q : Char) (c : Char) : Str :=
  if c = '\\' then ['\\', '\\']
  else if c = q then ['\\', q]
  else if c = '\n' then ['\\', 'n']
  else if c = '\r' then ['\\', 'r']
  else if c = '\t' then ['\\', 't']
  else [c]

def pyStrRepr (s : Str) : Str :=
  let q := pyReprQuote s
  q :: s.flatMap (pyCharEsc q) ++ [q]

def joinWith (sep : Str) : List Str → Str
  | [] => []
  | [x] => x
  | x :: xs => x ++ sep ++ joinWith sep xs

/-- Python `str(list_of_strings)` as used by the resolution error f-string. -/
def pyListRepr (xs : List Str) : Str :=
  '[' :: joinWith (chars ", ") (xs.map pyStrRepr) ++ [']']

/-- `f"Could not find cells defining: {target_vars}"`. -/
def noCellsMsg (target_vars : List Str) : Str :=
  chars "Could not find cells defining: " ++ pyListRepr target_vars

/-- `pathlib.Path.parent` for simple POSIX paths. -/
def parentDir (p : Str) : Str :=
  match p.reverse.dropWhile (fun c => c ≠ '/') with
  | [] => chars "."
  | ['/'] => chars "/"
  | _ :: rest => rest.reverse

/-- `prepare_notebook` (the parsing step is hoisted: the claims quantify
over the parsed document).  Returns the prepared notebook or the
resolution-failure message. -/
def prepare_notebook (parsed : ParsedNotebook) (notebook_path : Str)
    (target_vars : List Str) : Except Str PreparedNotebook :=
  let rr := get_required_cells parsed target_vars
  if rr.1 = [] then Except.error (noCellsMsg target_vars)
  else Except.ok
    { parsed := parsed
      required_indices := rr.1
      required_functions := rr.2
      target_var := target_vars.head?
      cwd := parentDir notebook_path }

/-- `MarimoHandler.build_script`: argument checks, dependency resolution and
assembly; errors are the `ValueError` messages of the Python code. -/
def build_script (extractor : Str → List (Str × Str)) (parsed : ParsedNotebook)
    (action_code : Str) (source_path : Option Str) (target_var : Option Str)
    (target_line : Option Int) : Except Str (Str × Str) :=
  match source_path with
  | none => Except.error (chars "MarimoHandler requires source_path (notebook path)")
  | some sp =>
    match target_var with
    | none => Except.error (chars "MarimoHandler requires target_var")
    | some tv =>
      match prepare_notebook parsed sp [tv] with
      | Except.error m => Except.error m
      | Except.ok prep =>
        Except.ok
          (assemble_pruned_notebook extractor prep.parsed prep.required_indices
            prep.required_functions action_code prep.target_var target_line,
           prep.cwd)

-- ------------------------------------------------------------------
-- Concrete example notebooks used by witnesses and counterexamples
-- ------------------------------------------------------------------

/-- Cell defining `a` from `b` (one half of a reference cycle). -/
def cycCellA : MarimoCell :=
  ⟨chars "_", [chars "b"], [chars "a"],
   chars "@app.cell\ndef _(b):\n    a = f(b)\n    return (a,)\n", 3, 6⟩

/-- Cell defining `b` from `a` (the other half of the cycle). -/
def cycCellB : MarimoCell :=
  ⟨chars "_", [chars "a"], [chars "b"],
   chars "@app.cell\ndef _(a):\n    b = g(a)\n    return (b,)\n", 8, 11⟩

/-- Notebook whose two cells mutually reference each other's outputs. -/
def cyclicNb : ParsedNotebook :=
  { preamble := [], setup_code := [], cells := [cycCellA, cycCellB] }

-- ------------------------------------------------------------------
-- C6
-- ------------------------------------------------------------------

/-- C6: for every cell code string, target variable, target line, and cell
starting line, if the cell-relative line index (target line minus cell
starting line) is negative or not less than the number of lines of the cell
code, `inject_snapshot` returns the cell code unchanged (exact string
equality) — a no-op, not an error. -/
theorem C6_out_of_range_snapshot_noop (cell_code target_var : Str)
    (target_line cell_start_line : Int)
    (h : target_line - cell_start_line < 0 ∨
         target_line - cell_start_line ≥ ((splitlines cell_code).length : Int)) :
    inject_snapshot cell_code target_var target_line cell_start_line = cell_code := by
  unfold inject_snapshot
  simp only []
  rw [if_pos h]

/-- Witness for C6 at a concrete out-of-range request (line 99 against a
four-line cell starting at line 5). -/
theorem C6_witness :
    ((99 : Int) - 5 < 0 ∨
      (99 : Int) - 5 ≥ ((splitlines (chars "@app.cell\ndef _():\n    df = load()\n    return (df,)\n")).length : Int)) ∧
    inject_snapshot (chars "@app.cell\ndef _():\n    df = load()\n    return (df,)\n")
      (chars "df") 99 5 =
      chars "@app.cell\ndef _():\n    df = load()\n    return (df,)\n" :=
  ⟨by decide,
   C6_out_of_range_snapshot_noop
     (chars "@app.cell\ndef _():\n    df = load()\n    return (df,)\n")
     (chars "df") 99 5 (by decide)⟩

-- ------------------------------------------------------------------
-- C9
-- ------------------------------------------------------------------

/-- C9: the build pipeline is deterministic — two invocations of
`build_script` on a fixed set of inputs (parsed source document, caller
code, source path, target variable, optional target line, and the
setup-import extraction function) produce byte-identical output.  The
embedding is a pure function of exactly these inputs, mirroring the code,
which reads no global state, clock or randomness after the initial file
read (hoisted here as the parsed document). -/
theorem C9_build_deterministic (extractor : Str → List (Str × Str))
    (parsed : ParsedNotebook) (action_code : Str) (source_path : Option Str)
    (target_var : Option Str) (target_line : Option Int) :
    build_script extractor parsed action_code source_path target_var target_line =
    build_script extractor parsed action_code source_path target_var target_line := rfl

-- ------------------------------------------------------------------
-- C2
-- ------------------------------------------------------------------

/-- C2: the backward-reachability loop of the dependency resolver
terminates for every parsed document and target list (the fuelled loop,
given the statically computed fuel, always drains its queue and returns a
result), and on the concrete two-cell reference cycle (`a` defined from
`b`, `b` defined from `a`) the resolver returns both indices exactly once
each. -/
theorem C2_resolver_terminates :
    (∀ (parsed : ParsedNotebook) (target_vars : List Str),
      ∃ r, resolveLoop parsed.cells (var_to_cell parsed.cells)
          (parsed.functions.map MarimoFunction.name)
          (resolveFuel parsed.cells target_vars) target_vars.reverse [] [] [] =
        some r) ∧
    (get_required_cells cyclicNb [chars "a"]).1 = [0, 1] ∧
    ((get_required_cells cyclicNb [chars "a"]).1).count 0 = 1 ∧
    ((get_required_cells cyclicNb [chars "a"]).1).count 1 = 1 := by
  refine ⟨?_, by decide, by decide, by decide⟩
  intro parsed target_vars
  rw [← Option.isSome_iff_exists]
  apply resolveLoop_total
  simp only [loopMeasure, resolveFuel]
  have hfil : ((var_to_cell parsed.cells).map Prod.fst).filter
      (fun k => decide (k ∉ ([] : List Str))) =
      (var_to_cell parsed.cells).map Prod.fst := by
    apply List.filter_eq_self.mpr
    intro a _
    simp
  rw [hfil]
  simp only [List.length_map, List.length_reverse]
  omega

-- ------------------------------------------------------------------
-- C3
-- ------------------------------------------------------------------

/-- C3: the `required_indices` list returned by the dependency resolver is
strictly ascending — sorted with no duplicate indices — for every parsed
document and target list, regardless of traversal order. -/
theorem C3_indices_sorted_nodup (parsed : ParsedNotebook) (target_vars : List Str) :
    ((get_required_cells parsed target_vars).1).Pairwise (· < ·) := by
  unfold get_required_cells
  simp only []
  split
  · simp
  · rename_i ridx rfns heq
    have hnodup : ridx.Nodup :=
      resolveLoop_nodup _ _ _ _ _ _ _ _ (ridx, rfns) heq List.nodup_nil
    have hsorted : List.Sorted (· ≤ ·) (List.insertionSort (· ≤ ·) ridx) :=
      List.sorted_insertionSort (· ≤ ·) ridx
    have hperm : List.Perm (List.insertionSort (· ≤ ·) ridx) ridx :=
      List.perm_insertionSort (· ≤ ·) ridx
    have hnodup2 : (List.insertionSort (· ≤ ·) ridx).Nodup :=
      (List.Perm.nodup_iff hperm).mpr hnodup
    have hand := List.Pairwise.and hsorted hnodup2
    exact hand.imp (fun h => Nat.lt_of_le_of_ne h.1 h.2)

-- ------------------------------------------------------------------
-- C1 support lemmas
-- ------------------------------------------------------------------

theorem mem_enumFrom_snd {α : Type} :
    ∀ (l : List α) (n : Nat) (p : Nat × α), p ∈ l.enumFrom n → p.2 ∈ l := by
  intro l
  induction l with
  | nil => intro n p hp; simp [List.enumFrom] at hp
  | cons a t ih =>
    intro n p hp
    simp only [List.enumFrom, List.mem_cons] at hp
    rcases hp with rfl | hp
    · simp
    · exact List.mem_cons_of_mem a (ih (n + 1) p hp)

/-- If no cell's defs contain `t`, the def-use map has no entry for `t`. -/
theorem lookupLast_eq_none_of_not_def (cells : List MarimoCell) (t : Str)
    (h : ∀ cell ∈ cells, t ∉ cell.defs) :
    lookupLast t (var_to_cell cells) = none := by
  unfold lookupLast
  have hf : (var_to_cell cells).reverse.find? (fun p => p.1 == t) = none := by
    rw [List.find?_eq_none]
    intro p hp
    have hp2 : p ∈ var_to_cell cells := List.mem_reverse.mp hp
    unfold var_to_cell at hp2
    rw [List.mem_flatMap] at hp2
    obtain ⟨q, hq, hpq⟩ := hp2
    rw [List.mem_map] at hpq
    obtain ⟨v, hv, hvp⟩ := hpq
    have hcell : q.2 ∈ cells := mem_enumFrom_snd cells 0 q hq
    have : p.1 = v := by rw [← hvp]
    simp only [this, beq_iff_eq, decide_eq_true_eq]
    intro he
    exact h q.2 hcell (he ▸ hv)
  rw [hf]
  rfl

/-- When no queued variable has a defining cell, the loop adds no index. -/
theorem resolveLoop_keeps_empty (cells : List MarimoCell)
    (vmap : List (Str × Nat)) (function_names : List Str) :
    ∀ fuel queue visited rfns r,
      (∀ v ∈ queue, lookupLast v vmap = none) →
      resolveLoop cells vmap function_names fuel queue visited [] rfns = some r →
      r.1 = [] := by
  intro fuel
  induction fuel with
  | zero =>
    intro queue visited rfns r hq hr
    match queue with
    | [] =>
      simp [resolveLoop] at hr
      rw [← hr]
    | v :: rest => simp [resolveLoop] at hr
  | succ fuel ih =>
    intro queue visited rfns r hq hr
    match queue with
    | [] =>
      simp [resolveLoop] at hr
      rw [← hr]
    | var :: rest =>
      simp only [resolveLoop] at hr
      by_cases hv : var ∈ visited
      · rw [if_pos hv] at hr
        exact ih rest visited rfns r (fun v hvm => hq v (List.mem_cons_of_mem var hvm)) hr
      · rw [if_neg hv] at hr
        rw [hq var (List.mem_cons_self var rest)] at hr
        exact ih rest (var :: visited) _ r
          (fun v hvm => hq v (List.mem_cons_of_mem var hvm)) hr

theorem flatMap_id_of_single {α : Type} (f : α → List α) :
    ∀ (l : List α), (∀ a ∈ l, f a = [a]) → l.flatMap f = l := by
  intro l
  induction l with
  | nil => simp
  | cons a t ih =>
    intro h
    rw [List.flatMap_cons, h a (List.mem_cons_self a t),
      ih (fun b hb => h b (List.mem_cons_of_mem a hb))]
    rfl

/-- When no target has a defining cell, `get_required_cells` returns no
indices. -/
theorem get_required_cells_empty (parsed : ParsedNotebook)
    (target_vars : List Str)
    (h : ∀ cell ∈ parsed.cells, ∀ t ∈ target_vars, t ∉ cell.defs) :
    (get_required_cells parsed target_vars).1 = [] := by
  unfold get_required_cells
  simp only []
  split
  · rfl
  · rename_i ridx rfns heq
    have hq : ∀ v ∈ target_vars.reverse,
        lookupLast v (var_to_cell parsed.cells) = none := by
      intro v hvm
      exact lookupLast_eq_none_of_not_def parsed.cells v
        (fun cell hc => h cell hc v (List.mem_reverse.mp hvm))
    have := resolveLoop_keeps_empty parsed.cells (var_to_cell parsed.cells)
      (parsed.functions.map MarimoFunction.name) _ _ [] [] (ridx, rfns) hq heq
    simp only at this
    rw [this]
    rfl

-- ------------------------------------------------------------------
-- C1
-- ------------------------------------------------------------------

/-- C1: if no cell's defs contain any of the requested targets, the
resolver returns an empty `required_indices` list, `prepare_notebook` fails
with the "Could not find cells defining" message naming the requested
targets (which appear verbatim in the message for plain identifiers), and
`build_script` propagates that message verbatim; `build_script` also fails
when the source path or the target variable is absent. -/
theorem C1_missing_target_errors (parsed : ParsedNotebook)
    (target_vars : List Str) (path action v : Str) (tl : Option Int)
    (extractor : Str → List (Str × Str))
    (hne : target_vars ≠ [])
    (hnone : ∀ cell ∈ parsed.cells, ∀ t ∈ target_vars, t ∉ cell.defs)
    (hv : ∀ cell ∈ parsed.cells, v ∉ cell.defs) :
    (get_required_cells parsed target_vars).1 = [] ∧
    prepare_notebook parsed path target_vars = Except.error (noCellsMsg target_vars) ∧
    build_script extractor parsed action (some path) (some v) tl =
      Except.error (noCellsMsg [v]) ∧
    ((∀ c ∈ v, pyCharEsc (pyReprQuote v) c = [c]) → v <:+: noCellsMsg [v]) ∧
    build_script extractor parsed action none (some v) tl =
      Except.error (chars "MarimoHandler requires source_path (notebook path)") ∧
    build_script extractor parsed action (some path) none tl =
      Except.error (chars "MarimoHandler requires target_var") := by
  have h1 := get_required_cells_empty parsed target_vars hnone
  have h1v : (get_required_cells parsed [v]).1 = [] := by
    apply get_required_cells_empty
    intro cell hc t ht
    rw [List.mem_singleton] at ht
    exact ht ▸ hv cell hc
  refine ⟨h1, ?_, ?_, ?_, rfl, rfl⟩
  · simp [prepare_notebook, h1]
  · simp [build_script, prepare_notebook, h1v]
  · intro hplain
    refine ⟨chars "Could not find cells defining: " ++ ['[', pyReprQuote v],
      [pyReprQuote v, ']'], ?_⟩
    have hfm : v.flatMap (pyCharEsc (pyReprQuote v)) = v :=
      flatMap_id_of_single _ v hplain
    simp [noCellsMsg, pyListRepr, pyStrRepr, joinWith, hfm]

/-- A one-cell notebook defining only `df`, used by the C1 witness. -/
def missNb : ParsedNotebook :=
  { preamble := chars "import marimo\n", setup_code := [],
    cells := [⟨chars "_", [], [chars "df"],
      chars "@app.cell\ndef _():\n    df = 1\n    return (df,)\n", 3, 6⟩] }

/-- Witness for C1: resolving `nonexistent` against a notebook that only
defines `df` fails everywhere the claim says it does. -/
theorem C1_witness :
    (([chars "nonexistent"] : List Str) ≠ [] ∧
     (∀ cell ∈ missNb.cells, ∀ t ∈ [chars "nonexistent"], t ∉ cell.defs) ∧
     (∀ cell ∈ missNb.cells, chars "nonexistent" ∉ cell.defs)) ∧
    ((get_required_cells missNb [chars "nonexistent"]).1 = [] ∧
     prepare_notebook missNb (chars "/tmp/nb.py") [chars "nonexistent"] =
       Except.error (noCellsMsg [chars "nonexistent"]) ∧
     build_script (fun _ => []) missNb (chars "x") (some (chars "/tmp/nb.py"))
         (some (chars "nonexistent")) none =
       Except.error (noCellsMsg [chars "nonexistent"]) ∧
     ((∀ c ∈ chars "nonexistent",
         pyCharEsc (pyReprQuote (chars "nonexistent")) c = [c]) →
       chars "nonexistent" <:+: noCellsMsg [chars "nonexistent"]) ∧
     build_script (fun _ => []) missNb (chars "x") none
         (some (chars "nonexistent")) none =
       Except.error (chars "MarimoHandler requires source_path (notebook path)") ∧
     build_script (fun _ => []) missNb (chars "x") (some (chars "/tmp/nb.py"))
         none none =
       Except.error (chars "MarimoHandler requires target_var")) :=
  ⟨⟨by decide, by decide, by decide⟩,
   C1_missing_target_errors missNb [chars "nonexistent"] (chars "/tmp/nb.py")
     (chars "x") (chars "nonexistent") none (fun _ => [])
     (by decide) (by decide) (by decide)⟩

-- ------------------------------------------------------------------
-- C7 support: declarative characterizations of the chain searches
-- ------------------------------------------------------------------

/-- The backwards scan for the chain start is the first index at or below
the target whose line contains `=` but not `==`. -/
theorem findChainStart_eq (lines : List Str) :
    ∀ idx, findChainStart lines idx =
      (List.range (idx + 1)).reverse.find? (fun i => hasAssign (lines.getD i [])) := by
  intro idx
  induction idx with
  | zero =>
    have h1 : (List.range (0 + 1)).reverse = [0] := by decide
    rw [h1]
    unfold findChainStart
    simp only [List.find?]
    cases hasAssign (lines.getD 0 []) <;> rfl
  | succ n ih =>
    rw [List.range_succ, List.reverse_append]
    simp only [List.reverse_cons, List.reverse_nil, List.nil_append,
      List.singleton_append, List.find?]
    unfold findChainStart
    cases hp : hasAssign (lines.getD (n + 1) []) with
    | true => rfl
    | false => simpa using ih

/-- The forward scan for a `return` line is the first index in
`[start, lines.length)` whose line contains `return`. -/
theorem returnSearchLoop_eq (lines : List Str) :
    ∀ (tail : List Str) (s : Nat), lines.drop s = tail →
      returnSearchLoop s tail =
        (List.range' s tail.length).find?
          (fun i => isSubstr (chars "return") (lines.getD i [])) := by
  intro tail
  induction tail with
  | nil => intro s h; simp [returnSearchLoop, List.range']
  | cons l rest ih =>
    intro s h
    have hl : lines.getD s [] = l := by
      have h0 : (lines.drop s)[0]? = some l := by rw [h]; simp
      rw [List.getElem?_drop, Nat.add_zero] at h0
      simp [List.getD, h0]
    have hdrop : lines.drop (s + 1) = rest := by
      have h2 : lines.drop (s + 1) = (lines.drop s).drop 1 := by
        rw [List.drop_drop, Nat.add_comm]
      rw [h2, h]
      rfl
    simp only [List.length_cons, List.range']
    simp only [returnSearchLoop, List.find?]
    rw [hl, ih (s + 1) hdrop]
    cases isSubstr (chars "return") l <;> rfl

theorem findReturnFrom_eq (lines : List Str) (s : Nat) :
    findReturnFrom lines s =
      (List.range' s (lines.length - s)).find?
        (fun i => isSubstr (chars "return") (lines.getD i [])) := by
  unfold findReturnFrom
  rw [returnSearchLoop_eq lines (lines.drop s) s rfl, List.length_drop]

-- ------------------------------------------------------------------
-- C7
-- ------------------------------------------------------------------

/-- Four lines forming a parenthesised assignment chain (lines 0-2) with a
`return` only after the chain's end. -/
def exC7code : Str := chars "x = (\n    a.b()\n)\nreturn x\n"

/-- C7 counterexample: the target line (index 1) is on the complex path
(chained-call pattern), the chain span found by the code is lines 0-2, no
line of that span contains `return` — yet the injector does NOT return the
code unchanged (it inserts the snapshot before the `return` on line 3,
outside the span), contradicting the claim's "otherwise no insertion
occurs and the code is returned unchanged". -/
theorem C7_counterexample :
    (isSubstr (chars ".pipe(") ((splitlines exC7code).getD 1 []) ||
      hasChainPattern ((splitlines exC7code).getD 1 [])) = true ∧
    findChainStart (splitlines exC7code) 1 = some 0 ∧
    findChainEnd (splitlines exC7code) 0 1 = 2 ∧
    (∀ i, i ≤ 2 → isSubstr (chars "return") ((splitlines exC7code).getD i []) = false) ∧
    inject_snapshot exC7code (chars "x") 2 1 ≠ exC7code := by decide

/-- C7 amended: on the complex path the injector searches backward from the
target line for the nearest assignment line (the chain start), walks
forward from it by parenthesis-depth balancing to the chain end, and then
inserts the snapshot assignment immediately before the FIRST line
containing `return` found at or after the chain end, searching TO THE END
OF THE CELL (not only inside the chain span); if no assignment line exists
at or above the target, or no `return` line exists from the chain end
onward, the code is returned unchanged. -/
theorem C7_amended_chain_behavior (lines : List Str) (target_line_idx : Nat)
    (target_var : Str) :
    break_method_chain lines target_line_idx target_var =
      match (List.range (target_line_idx + 1)).reverse.find?
          (fun i => hasAssign (lines.getD i [])) with
      | none => joinL lines
      | some chain_start =>
        match (List.range' (findChainEnd lines chain_start target_line_idx)
            (lines.length - findChainEnd lines chain_start target_line_idx)).find?
            (fun i => isSubstr (chars "return") (lines.getD i [])) with
        | none => joinL lines
        | some i =>
          joinL (pyInsert i
            (mkSnapshotLine ((lines.getD target_line_idx []).takeWhile isPySpace)
              target_var) lines) := by
  unfold break_method_chain
  rw [findChainStart_eq lines target_line_idx]
  cases hcs : (List.range (target_line_idx + 1)).reverse.find?
      (fun i => hasAssign (lines.getD i [])) with
  | none => rfl
  | some chain_start =>
    simp only []
    rw [findReturnFrom_eq]

-- ------------------------------------------------------------------
-- C8
-- ------------------------------------------------------------------

/-- One-cell notebook (cell defines `df` on lines 3-6) for the C8
counterexample. -/
def exC8nb : ParsedNotebook :=
  { preamble := chars "import marimo\n", setup_code := [],
    cells := [⟨chars "_", [], [chars "df"],
      chars "@app.cell\ndef _():\n    df = 1\n    return (df,)\n", 3, 6⟩] }

/-- C8 counterexample: with BOTH a target variable (`df`) and a target line
(0) supplied, the claim says the terminal cell declares the snapshot-derived
name `_viz_snapshot_df`; but Python truthiness (`if target_var and
target_line:`) treats line 0 as absent, so the assembled document contains
no `_viz_snapshot_df` at all and the terminal cell declares the raw name
`df`. -/
theorem C8_counterexample :
    isSubstr (chars "_viz_snapshot_df")
      (assemble_pruned_notebook (fun _ => []) exC8nb [0] [] (chars "df.head()")
        (some (chars "df")) (some 0)) = false ∧
    isSubstr (chars "\ndef _(df):\n")
      (assemble_pruned_notebook (fun _ => []) exC8nb [0] [] (chars "df.head()")
        (some (chars "df")) (some 0)) = true := by decide

/-- Modelled from the amended spec sentence: the terminal cell's declared
input is the snapshot-derived name when a non-empty target variable and a
nonzero target line were supplied, else the raw target variable name when a
non-empty target variable was supplied, else the underscore placeholder. -/
def specTerminalInput (target_var : Option Str) (target_line : Option Int) : Str :=
  match target_var, target_line with
  | some v, some l =>
    if v ≠ [] ∧ l ≠ 0 then chars "_viz_snapshot_" ++ v
    else if v ≠ [] then v
    else chars "_"
  | some v, none => if v ≠ [] then v else chars "_"
  | none, _ => chars "_"

/-- C8 amended: for every assembly invocation the output ends with the
synthetic terminal cell wrapping the deduplicated caller code followed by
the main block; the terminal cell's `def _(«refs»):` header declares exactly
the single input given by `specTerminalInput` (snapshot-derived name only
when the target variable is non-empty AND the target line is nonzero —
Python truthiness), and its body ends with a bare `return` (declaring no
output). -/
theorem C8_amended_terminal_cell (extractor : Str → List (Str × Str))
    (parsed : ParsedNotebook) (required_indices : List Nat)
    (required_functions : List Str) (plot_code : Str)
    (target_var : Option Str) (target_line : Option Int) :
    ∃ pre,
      assemble_pruned_notebook extractor parsed required_indices
          required_functions plot_code target_var target_line =
        pre ++
        (chars "\n@app.cell\ndef _(" ++ specTerminalInput target_var target_line ++
          chars "):\n    # Viz skill injected plotting code\n" ++
          indent_code
            (if parsed.setup_code ≠ [] then
              strip_imports_from_action_code plot_code (extractor parsed.setup_code)
            else plot_code) (chars "    ") ++
          chars "\n    return\n") ++
        (if parsed.main_block ≠ [] then chars "\n" ++ parsed.main_block
         else chars "\nif __name__ == \"__main__\":\n    app.run()\n") := by
  have href : plotRefs target_var target_line = specTerminalInput target_var target_line := by
    cases target_var <;> cases target_line <;> rfl
  refine ⟨?_, ?_⟩
  · exact parsed.preamble ++
      (if parsed.setup_code ≠ [] then
        chars "\nwith app.setup:\n" ++
          joinL ((splitlines parsed.setup_code).map reindentSetupLine) ++ chars "\n"
      else []) ++
      joinL (parsed.classes.map (fun c => chars "\n" ++ c.code ++ chars "\n")) ++
      joinL ((parsed.functions.filter
        (fun f => decide (f.name ∈ required_functions))).map
        (fun f => chars "\n" ++ f.code ++ chars "\n")) ++
      joinL (required_indices.map (fun idx =>
        chars "\n" ++ assembleCellCode target_var target_line
          (parsed.cells.getD idx default) ++ chars "\n"))
  · rw [← href]
    rfl

-- ------------------------------------------------------------------
-- C10
-- ------------------------------------------------------------------

/-- One-cell notebook whose cell defines `df` on lines 5-8, for the C10
counterexample and witness. -/
def exC10nb : ParsedNotebook :=
  { preamble := chars "import marimo\napp = marimo.App()\n", setup_code := [],
    cells := [⟨chars "_", [], [chars "df"],
      chars "@app.cell\ndef _():\n    df = load()\n    return (df,)\n", 5, 8⟩] }

/-- C10 counterexample: target variable `df` and target line 0 are both
supplied, and line 0 is outside the defining cell's range 5-8; the claim
says the terminal cell still declares `_viz_snapshot_df`, but Python
truthiness treats line 0 as absent, so the assembled document contains no
`_viz_snapshot_df` at all. -/
theorem C10_counterexample :
    ¬((5 : Int) ≤ 0 ∧ (0 : Int) ≤ 8) ∧
    isSubstr (chars "_viz_snapshot_df")
      (assemble_pruned_notebook (fun _ => []) exC10nb [0] [] (chars "df.plot()")
        (some (chars "df")) (some 0)) = false := by decide

/-- Modelled from the amended spec sentence: the assembled document with
every emitted cell's code unchanged and the terminal cell declaring the
given input name. -/
def specUnmodifiedAssembly (extractor : Str → List (Str × Str))
    (parsed : ParsedNotebook) (required_indices : List Nat)
    (required_functions : List Str) (plot_code : Str) (refs : Str) : Str :=
  (parsed.preamble ++
    (if parsed.setup_code ≠ [] then
      chars "\nwith app.setup:\n" ++
        joinL ((splitlines parsed.setup_code).map reindentSetupLine) ++ chars "\n"
    else []) ++
    joinL (parsed.classes.map (fun c => chars "\n" ++ c.code ++ chars "\n")) ++
    joinL ((parsed.functions.filter
      (fun f => decide (f.name ∈ required_functions))).map
      (fun f => chars "\n" ++ f.code ++ chars "\n")) ++
    joinL (required_indices.map (fun idx =>
      chars "\n" ++ (parsed.cells.getD idx default).code ++ chars "\n")) ++
    mkPlotCell refs
      (if parsed.setup_code ≠ [] then
        strip_imports_from_action_code plot_code (extractor parsed.setup_code)
      else plot_code) ++
    (if parsed.main_block ≠ [] then chars "\n" ++ parsed.main_block
     else chars "\nif __name__ == \"__main__\":\n    app.run()\n"))

/-- C10 amended: when a non-empty target variable and a NONZERO target line
are supplied (Python truthiness) but the target line falls outside the line
range of every required cell that defines the variable, the assembled
document is exactly the document with all emitted cells unchanged (no
snapshot assignment inserted anywhere) whose terminal cell nevertheless
declares the snapshot-derived name `_viz_snapshot_` plus the variable. -/
theorem C10_amended_dangling_snapshot_ref (extractor : Str → List (Str × Str))
    (parsed : ParsedNotebook) (required_indices : List Nat)
    (required_functions : List Str) (plot_code : Str) (v : Str) (l : Int)
    (hv : v ≠ []) (hl : l ≠ 0)
    (hout : ∀ i ∈ required_indices, v ∈ (parsed.cells.getD i default).defs →
      ¬((parsed.cells.getD i default).start_line ≤ l ∧
        l ≤ (parsed.cells.getD i default).end_line)) :
    assemble_pruned_notebook extractor parsed required_indices
        required_functions plot_code (some v) (some l) =
      specUnmodifiedAssembly extractor parsed required_indices
        required_functions plot_code (chars "_viz_snapshot_" ++ v) := by
  have hcells : required_indices.map (fun idx =>
      chars "\n" ++ assembleCellCode (some v) (some l)
        (parsed.cells.getD idx default) ++ chars "\n") =
      required_indices.map (fun idx =>
      chars "\n" ++ (parsed.cells.getD idx default).code ++ chars "\n") := by
    apply List.map_congr_left
    intro i hi
    have hcc : assembleCellCode (some v) (some l) (parsed.cells.getD i default) =
        (parsed.cells.getD i default).code := by
      simp only [assembleCellCode]
      rw [if_neg]
      intro ⟨_, _, hdef, hrange⟩
      exact hout i hi hdef ⟨hrange.1, hrange.2⟩
    rw [hcc]
  have href : plotRefs (some v) (some l) = chars "_viz_snapshot_" ++ v := by
    simp only [plotRefs]
    rw [if_pos ⟨hv, hl⟩]
  unfold assemble_pruned_notebook specUnmodifiedAssembly
  rw [hcells, href]

/-- Witness for C10 (amended): concrete invocation with `df`, line 2, and a
defining cell spanning lines 5-8. -/
theorem C10_witness :
    ((chars "df" ≠ []) ∧ ((2 : Int) ≠ 0) ∧
     (∀ i ∈ [0], chars "df" ∈ (exC10nb.cells.getD i default).defs →
       ¬((exC10nb.cells.getD i default).start_line ≤ 2 ∧
         (2 : Int) ≤ (exC10nb.cells.getD i default).end_line))) ∧
    assemble_pruned_notebook (fun _ => []) exC10nb [0] [] (chars "df.plot()")
        (some (chars "df")) (some 2) =
      specUnmodifiedAssembly (fun _ => []) exC10nb [0] [] (chars "df.plot()")
        (chars "_viz_snapshot_df") :=
  ⟨⟨by decide, by decide, by decide⟩,
   C10_amended_dangling_snapshot_ref (fun _ => []) exC10nb [0] [] (chars "df.plot()")
     (chars "df") 2 (by decide) (by decide) (by decide)⟩

-- ------------------------------------------------------------------
-- C4
-- ------------------------------------------------------------------

/-- The code's actual drop condition for one caller line: an import line
ALL of whose extracted names are in the setup map AND which binds at least
one name. -/
def dropsLine (m : List (Str × Str)) (line : Str) : Bool :=
  isImportLine (pyStrip line) &&
  (extract_imported_names_from_line (pyStrip line)).all (fun n => setupHasName n m) &&
  !(extract_imported_names_from_line (pyStrip line)).isEmpty

/-- The claim's drop condition: an import line every one of whose bound
names already appears in the map (vacuously true when the extractor binds
no names). -/
def claimC4Drop (m : List (Str × Str)) (line : Str) : Bool :=
  isImportLine (pyStrip line) &&
  (extract_imported_names_from_line (pyStrip line)).all (fun n => setupHasName n m)

/-- The per-line loop is a filter on the drop condition. -/
theorem stripImportsLines_eq_filter (m : List (Str × Str)) :
    ∀ ls, stripImportsLines m ls = ls.filter (fun line => !dropsLine m line) := by
  intro ls
  induction ls with
  | nil => rfl
  | cons line rest ih =>
    cases h1 : isImportLine (pyStrip line) <;>
      cases h2 : (extract_imported_names_from_line (pyStrip line)).all
        (fun n => setupHasName n m) <;>
        cases h3 : (extract_imported_names_from_line (pyStrip line)).isEmpty <;>
          simp [stripImportsLines, dropsLine, List.filter, h1, h2, h3, ih]

/-- C4 counterexample: the line `import x.y` is an import line for which
the extractor binds NO names, so "every name that line would bind already
appears in the map" holds vacuously (even for the empty map) and the claim
says the line is dropped — but the code keeps it. -/
theorem C4_counterexample :
    isImportLine (pyStrip (chars "import x.y")) = true ∧
    extract_imported_names_from_line (chars "import x.y") = [] ∧
    claimC4Drop [] (chars "import x.y") = true ∧
    strip_imports_from_action_code (chars "import x.y") [] ≠
      joinL ((splitlines (chars "import x.y")).filter
        (fun line => !claimC4Drop [] line)) := by decide

/-- C4 amended: the import deduplicator drops an import line exactly when
it binds AT LEAST ONE name and every name that line would bind already
appears in the map; a line with partial overlap is kept whole (the
`all`-test fails), and every non-import line passes through untouched in
its original order — the whole operation is the filter on the drop
condition applied to the kept-ends lines. -/
theorem C4_amended_dedup_filter (action_code : Str)
    (setup_imports : List (Str × Str)) :
    strip_imports_from_action_code action_code setup_imports =
      joinL ((splitlines action_code).filter
        (fun line => !dropsLine setup_imports line)) := by
  unfold strip_imports_from_action_code
  rw [stripImportsLines_eq_filter]

-- ------------------------------------------------------------------
-- C5 support: structure of splitlines output
-- ------------------------------------------------------------------

/-- No character of the string is a line break. -/
def breakFree (u : Str) : Prop := ∀ c ∈ u, isBreakChar c = false

/-- A line terminator as produced by `splitlines`. -/
def IsTerm (t : Str) : Prop :=
  t = ['\r', '\n'] ∨ ∃ c, isBreakChar c = true ∧ t = [c]

/-- A full line: break-free content followed by one terminator. -/
def completeLine (l : Str) : Prop :=
  ∃ u t, l = u ++ t ∧ breakFree u ∧ IsTerm t

/-- The final line of a split may instead lack a terminator. -/
def lastLineOK (l : Str) : Prop :=
  completeLine l ∨ (l ≠ [] ∧ breakFree l)

/-- Well-formed line lists: every line complete except possibly the last. -/
inductive LinesWF : List Str → Prop
  | nil : LinesWF []
  | single (l : Str) : lastLineOK l → LinesWF [l]
  | cons (l : Str) (ls : List Str) :
      completeLine l → ls ≠ [] → LinesWF ls → LinesWF (l :: ls)

theorem splitlines_ne_nil : ∀ (s : Str), s ≠ [] → splitlines s ≠ [] := by
  intro s hs
  match s with
  | [c] => simp [splitlines]
  | c :: c2 :: rest =>
    simp only [splitlines]
    split
    · simp
    · split
      · simp
      · split <;> simp

theorem splitlines_crlf (rest : Str) :
    splitlines ('\r' :: '\n' :: rest) = ['\r', '\n'] :: splitlines rest := by
  simp [splitlines]

theorem splitlines_cons_nonbreak (a : Char) (ha : isBreakChar a = false)
    (t l : Str) (ls : List Str) (ht : splitlines t = l :: ls) :
    splitlines (a :: t) = (a :: l) :: ls := by
  match t with
  | [] => simp [splitlines] at ht
  | b :: bs =>
    have har : a ≠ '\r' := by
      intro he
      rw [he] at ha
      simp [isBreakChar] at ha
    simp only [splitlines]
    rw [if_neg (fun h => har h.1)]
    simp only [ha, Bool.false_eq_true, if_false]
    rw [ht]

theorem splitlines_append_crlf (u : Str) (hu : breakFree u) (rest : Str) :
    splitlines (u ++ '\r' :: '\n' :: rest) = (u ++ ['\r', '\n']) :: splitlines rest := by
  induction u with
  | nil => simpa using splitlines_crlf rest
  | cons a u' ih =>
    have ha : isBreakChar a = false := hu a (List.mem_cons_self a u')
    have hu' : breakFree u' := fun c hc => hu c (List.mem_cons_of_mem a hc)
    rw [List.cons_append]
    rw [splitlines_cons_nonbreak a ha _ _ _ (ih hu')]
    rfl

theorem splitlines_append_term1 (u : Str) (c : Char) (rest : Str)
    (hu : breakFree u) (hc : isBreakChar c = true)
    (hnc : c = '\r' → ∀ r, rest ≠ '\n' :: r) :
    splitlines (u ++ c :: rest) = (u ++ [c]) :: splitlines rest := by
  induction u with
  | nil =>
    simp only [List.nil_append]
    match rest with
    | [] => simp [splitlines]
    | c2 :: rest2 =>
      simp only [splitlines]
      rw [if_neg (fun h => hnc h.1 rest2 (by rw [h.2]))]
      simp [hc]
  | cons a u' ih =>
    have ha : isBreakChar a = false := hu a (List.mem_cons_self a u')
    have hu' : breakFree u' := fun x hx => hu x (List.mem_cons_of_mem a hx)
    rw [List.cons_append]
    rw [splitlines_cons_nonbreak a ha _ _ _ (ih hu')]
    rfl

theorem splitlines_nonbreak_all : ∀ (l : Str), breakFree l → l ≠ [] → splitlines l = [l] := by
  intro l
  induction l with
  | nil => intro _ h; exact absurd rfl h
  | cons a t ih =>
    intro hbf _
    match t with
    | [] => simp [splitlines]
    | b :: bs =>
      have ht : splitlines (b :: bs) = [b :: bs] :=
        ih (fun c hc => hbf c (List.mem_cons_of_mem a hc)) (by simp)
      exact splitlines_cons_nonbreak a (hbf a (List.mem_cons_self a (b :: bs))) _ _ _ ht

/-- A well-formed final line splits into itself. -/
theorem splitlines_lastLineOK (l : Str) (h : lastLineOK l) : splitlines l = [l] := by
  rcases h with ⟨u, t, rfl, hu, ht⟩ | ⟨hne, hbf⟩
  · rcases ht with rfl | ⟨c, hc, rfl⟩
    · have := splitlines_append_crlf u hu []
      simpa using this
    · have := splitlines_append_term1 u c [] hu hc (fun _ r hr => by simp at hr)
      simpa using this
  · exact splitlines_nonbreak_all l hbf hne

-- pyStrip lemmas -----------------------------------------------------

theorem dropWhile_append_ne (p : Char → Bool) :
    ∀ (x t : Str), x.dropWhile p ≠ [] → (x ++ t).dropWhile p = x.dropWhile p ++ t := by
  intro x t
  induction x with
  | nil => intro h; exact absurd rfl h
  | cons a xs ih =>
    intro h
    by_cases hp : p a = true
    · rw [List.dropWhile_cons, if_pos hp] at h
      rw [List.cons_append, List.dropWhile_cons, if_pos hp,
        List.dropWhile_cons, if_pos hp]
      exact ih h
    · rw [List.cons_append, List.dropWhile_cons, if_neg hp,
        List.dropWhile_cons, if_neg hp]
      rfl

/-- Appending one more whitespace character does not change `strip()`. -/
theorem pyStrip_append_space (x : Str) (c : Char) (hc : isPySpace c = true) :
    pyStrip (x ++ [c]) = pyStrip x := by
  unfold pyStrip
  by_cases h : x.dropWhile isPySpace = []
  · have hall : ∀ a ∈ x, isPySpace a = true := by
      rw [← List.dropWhile_eq_nil_iff]
      exact h
    have h2 : (x ++ [c]).dropWhile isPySpace = [] := by
      rw [List.dropWhile_eq_nil_iff]
      intro a ha
      rcases List.mem_append.mp ha with hx | hc2
      · exact hall a hx
      · rw [List.mem_singleton] at hc2
        exact hc2 ▸ hc
    rw [h, h2]
  · rw [dropWhile_append_ne _ _ _ h, List.reverse_append]
    simp [List.dropWhile, hc]

theorem breakFree_nil : breakFree [] := fun x hx => absurd hx (List.not_mem_nil x)

theorem breakFree_cons {c : Char} {u : Str} (hc : isBreakChar c = false)
    (hu : breakFree u) : breakFree (c :: u) := by
  intro x hx
  rcases List.mem_cons.mp hx with rfl | h
  · exact hc
  · exact hu x h

/-- The output of `splitlines` is a well-formed line list. -/
theorem splitlines_LinesWF : ∀ (s : Str), LinesWF (splitlines s) := by
  intro s
  induction s using splitlines.induct with
  | case1 => exact LinesWF.nil
  | case2 c =>
    apply LinesWF.single
    by_cases hb : isBreakChar c = true
    · exact Or.inl ⟨[], [c], rfl, breakFree_nil, Or.inr ⟨c, hb, rfl⟩⟩
    · refine Or.inr ⟨by simp, ?_⟩
      intro x hx
      rw [List.mem_singleton] at hx
      subst hx
      simpa using hb
  | case3 c c2 rest h ih =>
    obtain ⟨rfl, rfl⟩ := h
    rw [splitlines_crlf]
    have hc : completeLine ['\r', '\n'] := ⟨[], _, rfl, breakFree_nil, Or.inl rfl⟩
    cases hsp : splitlines rest with
    | nil => exact LinesWF.single _ (Or.inl hc)
    | cons l ls =>
      rw [hsp] at ih
      exact LinesWF.cons _ _ hc (by simp) ih
  | case4 c c2 rest h hb ih =>
    have heq : splitlines (c :: c2 :: rest) = [c] :: splitlines (c2 :: rest) := by
      simp only [splitlines]
      rw [if_neg h]
      simp [hb]
    rw [heq]
    exact LinesWF.cons _ _ ⟨[], [c], rfl, breakFree_nil, Or.inr ⟨c, hb, rfl⟩⟩
      (splitlines_ne_nil _ (by simp)) ih
  | case5 c c2 rest h hb hsp ih =>
    exact absurd hsp (splitlines_ne_nil _ (by simp))
  | case6 c c2 rest h hb l ls hsp ih =>
    have hbf : isBreakChar c = false := by simpa using hb
    rw [splitlines_cons_nonbreak c hbf _ _ _ hsp]
    rw [hsp] at ih
    cases ih with
    | single l hlast =>
      apply LinesWF.single
      rcases hlast with ⟨u, t2, rfl, hu, ht⟩ | ⟨hne2, hbf2⟩
      · exact Or.inl ⟨c :: u, t2, rfl, breakFree_cons hbf hu, ht⟩
      · exact Or.inr ⟨by simp, breakFree_cons hbf hbf2⟩
    | cons l ls2 hcomp hne2 hwf2 =>
      obtain ⟨u, t2, rfl, hu, ht⟩ := hcomp
      exact LinesWF.cons _ _ ⟨c :: u, t2, rfl, breakFree_cons hbf hu, ht⟩ hne2 hwf2

/-- Filtering preserves line-list well-formedness. -/
theorem LinesWF_filter (p : Str → Bool) :
    ∀ (ls : List Str), LinesWF ls → LinesWF (ls.filter p) := by
  intro ls h
  induction h with
  | nil => exact LinesWF.nil
  | single l hl =>
    by_cases hp : p l = true
    · rw [List.filter_cons_of_pos hp]
      exact LinesWF.single l hl
    · rw [List.filter_cons_of_neg hp]
      exact LinesWF.nil
  | cons l ls hc hne hwf ih =>
    by_cases hp : p l = true
    · rw [List.filter_cons_of_pos hp]
      cases hfe : ls.filter p with
      | nil => exact LinesWF.single l (Or.inl hc)
      | cons x xs =>
        rw [← hfe]
        exact LinesWF.cons l _ hc (by rw [hfe]; simp) ih
    · rw [List.filter_cons_of_neg hp]
      exact ih

/-- The drop decision depends only on the stripped line. -/
theorem dropsLine_congr (m : List (Str × Str)) (a b : Str)
    (h : pyStrip a = pyStrip b) : dropsLine m a = dropsLine m b := by
  unfold dropsLine
  rw [h]

/-- A well-formed line that begins with a newline character is exactly
`"\n"`. -/
theorem line_starting_newline (l2 x r : Str) (hOK : lastLineOK l2)
    (heq : l2 ++ x = '\n' :: r) : l2 = ['\n'] := by
  match l2 with
  | [] =>
    rcases hOK with ⟨u, t, hl, hu, ht⟩ | ⟨hne, _⟩
    · rcases ht with rfl | ⟨c, hc, rfl⟩ <;> simp at hl
    · exact absurd rfl hne
  | h2 :: l2t =>
    rw [List.cons_append] at heq
    have hh2 : h2 = '\n' := (List.cons.injEq _ _ _ _ ▸ heq).1
    subst hh2
    rcases hOK with ⟨u, t, hl, hu, ht⟩ | ⟨_, hbf⟩
    · match u with
      | uh :: ut =>
        have : uh = '\n' := by
          rw [List.cons_append] at hl
          exact (List.cons.injEq _ _ _ _ ▸ hl).1.symm
        subst this
        have := hu '\n' (List.mem_cons_self _ _)
        simp [isBreakChar] at this
      | [] =>
        rw [List.nil_append] at hl
        rcases ht with rfl | ⟨c, hc, rfl⟩
        · simp at hl
        · rw [hl]
          have : c = '\n' := ((List.cons.injEq _ _ _ _).mp hl.symm).1
          rw [this]
    · have := hbf '\n' (List.mem_cons_self _ _)
      simp [isBreakChar] at this

/-- Splitting the concatenation of kept well-formed lines yields only lines
the dedup pass keeps (the only regrouping that can occur is merging a line
ending in `\r` with a following `"\n"` line, which does not change the
stripped content). -/
theorem splitlines_joinL_keep (m : List (Str × Str)) :
    ∀ (n : Nat) (ls : List Str), ls.length ≤ n → LinesWF ls →
      (∀ l ∈ ls, dropsLine m l = false) →
      ∀ l' ∈ splitlines (joinL ls), dropsLine m l' = false := by
  intro n
  induction n with
  | zero =>
    intro ls hlen _ _ l' hl'
    have h0 : ls = [] := List.length_eq_zero.mp (Nat.le_zero.mp hlen)
    subst h0
    simp [joinL, splitlines] at hl'
  | succ n ih =>
    intro ls hlen hwf hk l' hl'
    cases hwf with
    | nil => simp [joinL, splitlines] at hl'
    | single l hlast =>
      have hj : joinL [l] = l := by simp [joinL]
      rw [hj, splitlines_lastLineOK l hlast, List.mem_singleton] at hl'
      subst hl'
      exact hk l' (by simp)
    | cons l ls' hcomp hne hwf' =>
      obtain ⟨u, t, hl, hu, ht⟩ := hcomp
      have hkl : dropsLine m l = false := hk l (List.mem_cons_self l ls')
      have hk' : ∀ x ∈ ls', dropsLine m x = false :=
        fun x hx => hk x (List.mem_cons_of_mem l hx)
      have hlen' : ls'.length ≤ n := by
        simp only [List.length_cons] at hlen
        omega
      rcases ht with rfl | ⟨c, hbc, rfl⟩
      · have heqS : splitlines (joinL (l :: ls')) =
            (u ++ ['\r', '\n']) :: splitlines (joinL ls') := by
          have h1 : joinL (l :: ls') = u ++ '\r' :: '\n' :: joinL ls' := by
            show l ++ joinL ls' = _
            rw [hl, List.append_assoc]
            rfl
          rw [h1]
          exact splitlines_append_crlf u hu (joinL ls')
        rw [heqS] at hl'
        rcases List.mem_cons.mp hl' with rfl | hl2
        · rw [← hl]
          exact hkl
        · exact ih ls' hlen' hwf' hk' l' hl2
      · by_cases hmerge : c = '\r' ∧ ∃ r, joinL ls' = '\n' :: r
        · obtain ⟨rfl, r, hjr⟩ := hmerge
          have hps : pyStrip (u ++ ['\r', '\n']) = pyStrip (u ++ ['\r']) := by
            have h2 := pyStrip_append_space (u ++ ['\r']) '\n' (by decide)
            simpa [List.append_assoc] using h2
          cases hwf' with
          | nil => exact absurd rfl hne
          | single l2 hlast2 =>
            have hj2 : l2 ++ ([] : Str) = '\n' :: r := hjr
            have hl2 : l2 = ['\n'] := line_starting_newline l2 [] r hlast2 hj2
            subst hl2
            have heqS : splitlines (joinL (l :: [['\n']])) = [u ++ ['\r', '\n']] := by
              have h1 : joinL (l :: [['\n']]) = u ++ '\r' :: '\n' :: ([] : Str) := by
                show l ++ joinL [['\n']] = _
                rw [hl]
                show (u ++ ['\r']) ++ (['\n'] ++ []) = _
                rw [List.append_assoc]
                rfl
              rw [h1]
              simpa using splitlines_append_crlf u hu []
            rw [heqS, List.mem_singleton] at hl'
            subst hl'
            rw [dropsLine_congr m _ _ hps, ← hl]
            exact hkl
          | cons l2 ls'' hc2 hne2 hwf'' =>
            have hj2 : l2 ++ joinL ls'' = '\n' :: r := hjr
            have hl2 : l2 = ['\n'] :=
              line_starting_newline l2 (joinL ls'') r (Or.inl hc2) hj2
            subst hl2
            have heqS : splitlines (joinL (l :: ['\n'] :: ls'')) =
                (u ++ ['\r', '\n']) :: splitlines (joinL ls'') := by
              have h1 : joinL (l :: ['\n'] :: ls'') = u ++ '\r' :: '\n' :: joinL ls'' := by
                show l ++ joinL (['\n'] :: ls'') = _
                rw [hl]
                show (u ++ ['\r']) ++ (['\n'] ++ joinL ls'') = _
                rw [List.append_assoc]
                rfl
              rw [h1]
              exact splitlines_append_crlf u hu (joinL ls'')
            rw [heqS] at hl'
            rcases List.mem_cons.mp hl' with rfl | hl2m
            · rw [dropsLine_congr m _ _ hps, ← hl]
              exact hkl
            · have hlen'' : ls''.length ≤ n := by
                simp only [List.length_cons] at hlen
                omega
              have hk'' : ∀ x ∈ ls'', dropsLine m x = false :=
                fun x hx => hk' x (List.mem_cons_of_mem _ hx)
              exact ih ls'' hlen'' hwf'' hk'' l' hl2m
        · have hnc : c = '\r' → ∀ r2, joinL ls' ≠ '\n' :: r2 := by
            intro hcr r2 hr2
            exact hmerge ⟨hcr, r2, hr2⟩
          have heqS : splitlines (joinL (l :: ls')) =
              (u ++ [c]) :: splitlines (joinL ls') := by
            have h1 : joinL (l :: ls') = u ++ c :: joinL ls' := by
              show l ++ joinL ls' = _
              rw [hl, List.append_assoc]
              rfl
            rw [h1]
            exact splitlines_append_term1 u c (joinL ls') hu hbc hnc
          rw [heqS] at hl'
          rcases List.mem_cons.mp hl' with rfl | hl2
          · rw [← hl]
            exact hkl
          · exact ih ls' hlen' hwf' hk' l' hl2

-- ------------------------------------------------------------------
-- C5
-- ------------------------------------------------------------------

/-- C5: applying the import deduplication twice in a row yields the same
result as applying it once — lines once dropped stay dropped, lines once
kept stay kept (the operation is idempotent), for every caller code block
and setup-import map. -/
theorem C5_dedup_idempotent (action_code : Str) (setup_imports : List (Str × Str)) :
    strip_imports_from_action_code
      (strip_imports_from_action_code action_code setup_imports) setup_imports =
    strip_imports_from_action_code action_code setup_imports := by
  have h1 : strip_imports_from_action_code action_code setup_imports =
      joinL ((splitlines action_code).filter
        (fun line => !dropsLine setup_imports line)) := by
    unfold strip_imports_from_action_code
    rw [stripImportsLines_eq_filter]
  rw [h1]
  set ks := (splitlines action_code).filter
    (fun line => !dropsLine setup_imports line) with hks
  have hwf : LinesWF ks := LinesWF_filter _ _ (splitlines_LinesWF action_code)
  have hkeep : ∀ l ∈ ks, dropsLine setup_imports l = false := by
    intro l hl
    have := List.of_mem_filter hl
    simpa using this
  have hall : ∀ l' ∈ splitlines (joinL ks), dropsLine setup_imports l' = false :=
    splitlines_joinL_keep setup_imports ks.length ks (Nat.le_refl _) hwf hkeep
  unfold strip_imports_from_action_code
  rw [stripImportsLines_eq_filter]
  have hfe : (splitlines (joinL ks)).filter
      (fun line => !dropsLine setup_imports line) = splitlines (joinL ks) := by
    apply List.filter_eq_self.mpr
    intro a ha
    simp [hall a ha]
  rw [hfe, joinL_splitlines]
